import Mathlib

/-!
Verification of the bus-sniffer DPI capture pipeline
(`hw/ip/bus_sniffer/dpi/bus_sniffer_dpi.cc`).

The C file implements a single-producer / single-consumer capture pipeline:
a 65536-slot ring buffer of 128-bit frames, a pure bit-field decoder, a
background writer that drains the ring into a binary sink and a CSV sink
(optionally echoing sampled frames to the console), and a lazy-start /
explicit-close session lifecycle.

This development shallowly embeds that code: `uint32_t` values become `Nat`
with explicit `% 2 ^ 32` where C wrap-around semantics matter, the global
mutable state becomes an explicit `SnifferState` record, and the
producer/consumer concurrency is modelled as a sequential interleaving of
`push` calls and writer drain passes (the SPSC discipline makes every real
execution equivalent to such an interleaving at the granularity of these
operations).
-/

namespace BusSniffer

/-- A captured frame: four 32-bit words, word 0 = bits 127..96 (MSW first),
mirroring `struct Frame { uint32_t w[4]; }`. -/
structure Frame where
  w0 : Nat
  w1 : Nat
  w2 : Nat
  w3 : Nat
deriving DecidableEq

/-- A frame is well formed when each word fits in 32 bits (guaranteed in C
by the `uint32_t` type). -/
def wfFrame (f : Frame) : Prop :=
  f.w0 < 2 ^ 32 ∧ f.w1 < 2 ^ 32 ∧ f.w2 < 2 ^ 32 ∧ f.w3 < 2 ^ 32

instance (f : Frame) : Decidable (wfFrame f) := by
  unfold wfFrame; infer_instance

/-- Ring capacity: `static const uint32_t RB_SIZE = 1u << 16;`. -/
def RB_SIZE : Nat := 2 ^ 16

/-- `rb_used(h, t) = (h - t) & (RB_SIZE - 1)` with `uint32_t` wrap-around
subtraction made explicit (`h`, `t` are `uint32_t`, hence `< 2 ^ 32`). -/
def rb_used (h t : Nat) : Nat := ((h + 2 ^ 32 - t) % 2 ^ 32) &&& (RB_SIZE - 1)

/-- `rb_free(h, t) = (RB_SIZE - 1) - rb_used(h, t)`. -/
def rb_free (h t : Nat) : Nat := (RB_SIZE - 1) - rb_used h t

/-- The nine decoded fields produced by `decode_to_fields` (the C function
returns them through reference out-parameters). -/
structure DecodedFields where
  src     : Nat
  req_ts  : Nat
  resp_ts : Nat
  addr    : Nat
  data    : Nat
  be      : Nat
  we      : Nat
  valid   : Nat
  gnt     : Nat
deriving DecidableEq

/-- Direct translation of `decode_to_fields`: pure bit extraction from the
128-bit frame (w0 = bits 127..96, ..., w3 = bits 31..0). -/
def decode_to_fields (fr : Frame) : DecodedFields :=
  { src     := (fr.w0 >>> 28) &&& 0xF
    req_ts  := ((fr.w0 &&& 0x0FFFFFFF) <<< 4) ||| (fr.w1 >>> 28)
    resp_ts := (fr.w1 >>> 12) &&& 0xFFFF
    addr    := ((fr.w1 &&& 0xFFF) <<< 20) ||| (fr.w2 >>> 12)
    data    := ((fr.w2 &&& 0xFFF) <<< 20) ||| (fr.w3 >>> 12)
    be      := (fr.w3 >>> 8) &&& 0xF
    we      := (fr.w3 >>> 7) &&& 0x1
    valid   := (fr.w3 >>> 6) &&& 0x1
    gnt     := (fr.w3 >>> 5) &&& 0x1 }

/-- Modelled from the spec: re-encoding of the nine decoded fields back into
four words following the bit layout table of spec section 3 (source id at
w0[31:28], request timestamp at w0[27:0]++w1[31:28], response timestamp at
w1[27:12], address at w1[11:0]++w2[31:12], data at w2[11:0]++w3[31:12],
byte-enable at w3[11:8], write flag w3[7], valid flag w3[6], grant flag
w3[5]). No C function performs this; it exists only to state the round-trip
property. -/
def encode_fields_spec (d : DecodedFields) : Frame :=
  { w0 := (d.src <<< 28) ||| (d.req_ts >>> 4)
    w1 := ((d.req_ts &&& 0xF) <<< 28) ||| (d.resp_ts <<< 12) ||| (d.addr >>> 20)
    w2 := ((d.addr &&& 0xFFFFF) <<< 12) ||| (d.data >>> 20)
    w3 := ((d.data &&& 0xFFFFF) <<< 12) ||| (d.be <<< 8) ||| (d.we <<< 7) |||
          (d.valid <<< 6) ||| (d.gnt <<< 5) }

/-! ### Bit-arithmetic helpers -/

/-- Bitwise or of values occupying disjoint bit ranges is addition. -/
lemma lor_eq_add (n a b : Nat) (ha : a % 2 ^ n = 0) (hb : b < 2 ^ n) :
    a ||| b = a + b := by
  obtain ⟨c, hc⟩ : 2 ^ n ∣ a := Nat.dvd_of_mod_eq_zero ha
  subst hc
  apply Nat.eq_of_testBit_eq
  intro j
  rw [Nat.testBit_or, Nat.testBit_mul_pow_two_add c hb j]
  have h1 : Nat.testBit (2 ^ n * c) j =
      if j < n then false else Nat.testBit c (j - n) := by
    have h0 : (0 : Nat) < 2 ^ n := Nat.two_pow_pos n
    have h2 := Nat.testBit_mul_pow_two_add c h0 j
    simpa using h2
  rw [h1]
  by_cases hj : j < n
  · simp [hj]
  · have hbj : Nat.testBit b j = false :=
      Nat.testBit_lt_two_pow
        (Nat.lt_of_lt_of_le hb (Nat.pow_le_pow_right (by omega) (by omega)))
    simp [hj, hbj]

lemma and_mask (x n : Nat) : x &&& (2 ^ n - 1) = x % 2 ^ n :=
  Nat.and_pow_two_sub_one_eq_mod x n

lemma shr_eq (x n : Nat) : x >>> n = x / 2 ^ n := Nat.shiftRight_eq_div_pow x n

lemma shl_eq (x n : Nat) : x <<< n = x * 2 ^ n := Nat.shiftLeft_eq x n

lemma and_f (x : Nat) : x &&& 0xF = x % 2 ^ 4 := by simpa using and_mask x 4

lemma and_fffff (x : Nat) : x &&& 0xFFFFF = x % 2 ^ 20 := by
  simpa using and_mask x 20

/-! Arithmetic characterisations of the nine decoded fields. -/

lemma decode_src (fr : Frame) :
    (decode_to_fields fr).src = fr.w0 / 2 ^ 28 % 2 ^ 4 := by
  simp only [decode_to_fields, and_f, shr_eq]

lemma decode_req_ts (fr : Frame) (h1 : fr.w1 < 2 ^ 32) :
    (decode_to_fields fr).req_ts = fr.w0 % 2 ^ 28 * 2 ^ 4 + fr.w1 / 2 ^ 28 := by
  simp only [decode_to_fields]
  have hm : fr.w0 &&& 0x0FFFFFFF = fr.w0 % 2 ^ 28 := by
    simpa using and_mask fr.w0 28
  rw [hm, shl_eq, shr_eq, lor_eq_add 4 _ _ (Nat.mul_mod_left _ _)
    (Nat.div_lt_of_lt_mul (Nat.lt_of_lt_of_le h1 (by decide)))]

lemma decode_resp_ts (fr : Frame) :
    (decode_to_fields fr).resp_ts = fr.w1 / 2 ^ 12 % 2 ^ 16 := by
  have hm : ∀ x : Nat, x &&& 0xFFFF = x % 2 ^ 16 := fun x => by
    simpa using and_mask x 16
  simp only [decode_to_fields, hm, shr_eq]

lemma decode_addr (fr : Frame) (h2 : fr.w2 < 2 ^ 32) :
    (decode_to_fields fr).addr = fr.w1 % 2 ^ 12 * 2 ^ 20 + fr.w2 / 2 ^ 12 := by
  simp only [decode_to_fields]
  have hm : fr.w1 &&& 0xFFF = fr.w1 % 2 ^ 12 := by
    simpa using and_mask fr.w1 12
  rw [hm, shl_eq, shr_eq, lor_eq_add 20 _ _ (Nat.mul_mod_left _ _)
    (Nat.div_lt_of_lt_mul (Nat.lt_of_lt_of_le h2 (by decide)))]

lemma decode_data (fr : Frame) (h3 : fr.w3 < 2 ^ 32) :
    (decode_to_fields fr).data = fr.w2 % 2 ^ 12 * 2 ^ 20 + fr.w3 / 2 ^ 12 := by
  simp only [decode_to_fields]
  have hm : fr.w2 &&& 0xFFF = fr.w2 % 2 ^ 12 := by
    simpa using and_mask fr.w2 12
  rw [hm, shl_eq, shr_eq, lor_eq_add 20 _ _ (Nat.mul_mod_left _ _)
    (Nat.div_lt_of_lt_mul (Nat.lt_of_lt_of_le h3 (by decide)))]

lemma decode_be (fr : Frame) :
    (decode_to_fields fr).be = fr.w3 / 2 ^ 8 % 2 ^ 4 := by
  simp only [decode_to_fields, and_f, shr_eq]

lemma decode_we (fr : Frame) :
    (decode_to_fields fr).we = fr.w3 / 2 ^ 7 % 2 := by
  simp only [decode_to_fields, Nat.and_one_is_mod, shr_eq]

lemma decode_valid (fr : Frame) :
    (decode_to_fields fr).valid = fr.w3 / 2 ^ 6 % 2 := by
  simp only [decode_to_fields, Nat.and_one_is_mod, shr_eq]

lemma decode_gnt (fr : Frame) :
    (decode_to_fields fr).gnt = fr.w3 / 2 ^ 5 % 2 := by
  simp only [decode_to_fields, Nat.and_one_is_mod, shr_eq]


/-! Cheap arithmetic helpers used to reassemble words from their fields
without large linear-arithmetic certificates. -/

lemma or_split (i x y : Nat) (hy : y < 2 ^ i) :
    x * 2 ^ i ||| y = x * 2 ^ i + y :=
  lor_eq_add i (x * 2 ^ i) y (Nat.mul_mod_left x (2 ^ i)) hy

lemma mul_pow_lt_pow (x i j : Nat) (hx : x < 2 ^ i) : x * 2 ^ j < 2 ^ (j + i) := by
  calc x * 2 ^ j < 2 ^ i * 2 ^ j :=
        mul_lt_mul_of_pos_right hx (Nat.two_pow_pos j)
    _ = 2 ^ (j + i) := by rw [← Nat.pow_add, Nat.add_comm i j]

lemma mul_add_lt_pow (x y i j : Nat) (hx : x < 2 ^ i) (hy : y < 2 ^ j) :
    x * 2 ^ j + y < 2 ^ (j + i) := by
  calc x * 2 ^ j + y < x * 2 ^ j + 2 ^ j := Nat.add_lt_add_left hy _
    _ = (x + 1) * 2 ^ j := (Nat.succ_mul x (2 ^ j)).symm
    _ ≤ 2 ^ i * 2 ^ j := Nat.mul_le_mul_right _ hx
    _ = 2 ^ (j + i) := by rw [← Nat.pow_add, Nat.add_comm i j]

lemma pow_split0 (x k : Nat) : x = x / 2 ^ k * 2 ^ k + x % 2 ^ k := by
  rw [Nat.mul_comm]
  exact (Nat.div_add_mod x (2 ^ k)).symm

lemma div_pow_split (x i k : Nat) :
    x / 2 ^ i * 2 ^ i =
      x / 2 ^ (i + k) * 2 ^ (i + k) + x / 2 ^ i % 2 ^ k * 2 ^ i := by
  have h1 : x / 2 ^ i / 2 ^ k = x / 2 ^ (i + k) := by
    rw [Nat.div_div_eq_div_mul, ← Nat.pow_add]
  calc x / 2 ^ i * 2 ^ i
      = (2 ^ k * (x / 2 ^ i / 2 ^ k) + x / 2 ^ i % 2 ^ k) * 2 ^ i := by
        rw [Nat.div_add_mod]
    _ = 2 ^ k * (x / 2 ^ i / 2 ^ k) * 2 ^ i + x / 2 ^ i % 2 ^ k * 2 ^ i := by
        rw [Nat.add_mul]
    _ = x / 2 ^ (i + k) * 2 ^ (i + k) + x / 2 ^ i % 2 ^ k * 2 ^ i := by
        rw [h1, Nat.mul_comm (2 ^ k), Nat.mul_assoc, ← Nat.pow_add,
          Nat.add_comm k i]

/-- Re-encoding the decoded fields reproduces every bit of the frame except
the five lowest (w3[4:0]), which no decoded field covers. -/
lemma encode_decode (fr : Frame) (h : wfFrame fr) :
    encode_fields_spec (decode_to_fields fr) =
      Frame.mk fr.w0 fr.w1 fr.w2 (fr.w3 / 2 ^ 5 * 2 ^ 5) := by
  obtain ⟨h0, h1, h2, h3⟩ := h
  unfold encode_fields_spec
  rw [decode_src, decode_req_ts fr h1, decode_resp_ts, decode_addr fr h2,
    decode_data fr h3, decode_be, decode_we, decode_valid, decode_gnt]
  simp only [and_f, and_fffff, shl_eq, shr_eq, Nat.lor_assoc]
  have ha4 : fr.w0 / 2 ^ 28 < 2 ^ 4 :=
    Nat.div_lt_of_lt_mul (Nat.lt_of_lt_of_le h0 (by decide))
  have hb4 : fr.w1 / 2 ^ 28 < 2 ^ 4 :=
    Nat.div_lt_of_lt_mul (Nat.lt_of_lt_of_le h1 (by decide))
  have hc20 : fr.w2 / 2 ^ 12 < 2 ^ 20 :=
    Nat.div_lt_of_lt_mul (Nat.lt_of_lt_of_le h2 (by decide))
  have hd20 : fr.w3 / 2 ^ 12 < 2 ^ 20 :=
    Nat.div_lt_of_lt_mul (Nat.lt_of_lt_of_le h3 (by decide))
  -- the spec encoder recovers each raw field group from the packed ones
  have eA1 : (fr.w0 % 2 ^ 28 * 2 ^ 4 + fr.w1 / 2 ^ 28) / 2 ^ 4 =
      fr.w0 % 2 ^ 28 := by
    rw [Nat.mul_comm (fr.w0 % 2 ^ 28), Nat.mul_add_div (by decide),
      Nat.div_eq_of_lt hb4, Nat.add_zero]
  have eA2 : (fr.w0 % 2 ^ 28 * 2 ^ 4 + fr.w1 / 2 ^ 28) % 2 ^ 4 =
      fr.w1 / 2 ^ 28 := by
    rw [Nat.mul_comm (fr.w0 % 2 ^ 28), Nat.mul_add_mod, Nat.mod_eq_of_lt hb4]
  have eA3 : (fr.w1 % 2 ^ 12 * 2 ^ 20 + fr.w2 / 2 ^ 12) / 2 ^ 20 =
      fr.w1 % 2 ^ 12 := by
    rw [Nat.mul_comm (fr.w1 % 2 ^ 12), Nat.mul_add_div (by decide),
      Nat.div_div_eq_div_mul,
      Nat.div_eq_of_lt (Nat.lt_of_lt_of_le h2 (by decide)), Nat.add_zero]
  have eA4 : (fr.w1 % 2 ^ 12 * 2 ^ 20 + fr.w2 / 2 ^ 12) % 2 ^ 20 =
      fr.w2 / 2 ^ 12 := by
    rw [Nat.mul_comm (fr.w1 % 2 ^ 12), Nat.mul_add_mod, Nat.mod_eq_of_lt hc20]
  have eA5 : (fr.w2 % 2 ^ 12 * 2 ^ 20 + fr.w3 / 2 ^ 12) / 2 ^ 20 =
      fr.w2 % 2 ^ 12 := by
    rw [Nat.mul_comm (fr.w2 % 2 ^ 12), Nat.mul_add_div (by decide),
      Nat.div_div_eq_div_mul,
      Nat.div_eq_of_lt (Nat.lt_of_lt_of_le h3 (by decide)), Nat.add_zero]
  have eA6 : (fr.w2 % 2 ^ 12 * 2 ^ 20 + fr.w3 / 2 ^ 12) % 2 ^ 20 =
      fr.w3 / 2 ^ 12 := by
    rw [Nat.mul_comm (fr.w2 % 2 ^ 12), Nat.mul_add_mod, Nat.mod_eq_of_lt hd20]
  rw [eA1, eA2, eA3, eA4, eA5, eA6]
  -- turn each disjoint-or into an addition, innermost first
  have hbit5 : fr.w3 / 2 ^ 5 % 2 < 2 ^ 1 :=
    Nat.lt_of_lt_of_le (Nat.mod_lt _ (by decide)) (by norm_num)
  have hbit6 : fr.w3 / 2 ^ 6 % 2 < 2 ^ 1 :=
    Nat.lt_of_lt_of_le (Nat.mod_lt _ (by decide)) (by norm_num)
  have hbit7 : fr.w3 / 2 ^ 7 % 2 < 2 ^ 1 :=
    Nat.lt_of_lt_of_le (Nat.mod_lt _ (by decide)) (by norm_num)
  have q5 : fr.w3 / 2 ^ 5 % 2 * 2 ^ 5 < 2 ^ 6 := by
    have h := mul_pow_lt_pow (fr.w3 / 2 ^ 5 % 2) 1 5 hbit5
    exact h.trans_le (by norm_num)
  have q6 : fr.w3 / 2 ^ 6 % 2 * 2 ^ 6 + fr.w3 / 2 ^ 5 % 2 * 2 ^ 5 < 2 ^ 7 := by
    have h := mul_add_lt_pow (fr.w3 / 2 ^ 6 % 2) (fr.w3 / 2 ^ 5 % 2 * 2 ^ 5)
      1 6 hbit6 q5
    exact h.trans_le (by norm_num)
  have q7 : fr.w3 / 2 ^ 7 % 2 * 2 ^ 7 +
      (fr.w3 / 2 ^ 6 % 2 * 2 ^ 6 + fr.w3 / 2 ^ 5 % 2 * 2 ^ 5) < 2 ^ 8 := by
    have h := mul_add_lt_pow (fr.w3 / 2 ^ 7 % 2)
      (fr.w3 / 2 ^ 6 % 2 * 2 ^ 6 + fr.w3 / 2 ^ 5 % 2 * 2 ^ 5)
      1 7 hbit7 q6
    exact h.trans_le (by norm_num)
  have q8 : fr.w3 / 2 ^ 8 % 2 ^ 4 * 2 ^ 8 +
      (fr.w3 / 2 ^ 7 % 2 * 2 ^ 7 +
        (fr.w3 / 2 ^ 6 % 2 * 2 ^ 6 + fr.w3 / 2 ^ 5 % 2 * 2 ^ 5)) < 2 ^ 12 := by
    have h := mul_add_lt_pow (fr.w3 / 2 ^ 8 % 2 ^ 4)
      (fr.w3 / 2 ^ 7 % 2 * 2 ^ 7 +
        (fr.w3 / 2 ^ 6 % 2 * 2 ^ 6 + fr.w3 / 2 ^ 5 % 2 * 2 ^ 5))
      4 8 (Nat.mod_lt (fr.w3 / 2 ^ 8) (Nat.two_pow_pos 4)) q7
    exact h.trans_le (by norm_num)
  have q12 : fr.w1 / 2 ^ 12 % 2 ^ 16 * 2 ^ 12 + fr.w1 % 2 ^ 12 < 2 ^ 28 := by
    have h := mul_add_lt_pow (fr.w1 / 2 ^ 12 % 2 ^ 16) (fr.w1 % 2 ^ 12)
      16 12 (Nat.mod_lt (fr.w1 / 2 ^ 12) (Nat.two_pow_pos 16))
      (Nat.mod_lt fr.w1 (Nat.two_pow_pos 12))
    exact h.trans_le (by norm_num)
  rw [or_split 6 _ _ q5, or_split 7 _ _ q6, or_split 8 _ _ q7,
    or_split 12 (fr.w3 / 2 ^ 12) _ q8,
    or_split 28 (fr.w0 / 2 ^ 28 % 2 ^ 4) _ (Nat.mod_lt _ (Nat.two_pow_pos 28)),
    or_split 12 (fr.w1 / 2 ^ 12 % 2 ^ 16) _ (Nat.mod_lt _ (Nat.two_pow_pos 12)),
    or_split 28 (fr.w1 / 2 ^ 28) _ q12,
    or_split 12 (fr.w2 / 2 ^ 12) _ (Nat.mod_lt _ (Nat.two_pow_pos 12))]
  -- reassemble the four words
  have sW0 : fr.w0 / 2 ^ 28 % 2 ^ 4 * 2 ^ 28 + fr.w0 % 2 ^ 28 = fr.w0 := by
    rw [Nat.mod_eq_of_lt ha4]
    exact (pow_split0 fr.w0 28).symm
  have sb12 : fr.w1 / 2 ^ 12 * 2 ^ 12 =
      fr.w1 / 2 ^ 28 * 2 ^ 28 + fr.w1 / 2 ^ 12 % 2 ^ 16 * 2 ^ 12 :=
    div_pow_split fr.w1 12 16
  have sW1 : fr.w1 / 2 ^ 28 * 2 ^ 28 +
      (fr.w1 / 2 ^ 12 % 2 ^ 16 * 2 ^ 12 + fr.w1 % 2 ^ 12) = fr.w1 := by
    calc fr.w1 / 2 ^ 28 * 2 ^ 28 +
        (fr.w1 / 2 ^ 12 % 2 ^ 16 * 2 ^ 12 + fr.w1 % 2 ^ 12)
        = fr.w1 / 2 ^ 28 * 2 ^ 28 + fr.w1 / 2 ^ 12 % 2 ^ 16 * 2 ^ 12 +
          fr.w1 % 2 ^ 12 := (Nat.add_assoc _ _ _).symm
      _ = fr.w1 / 2 ^ 12 * 2 ^ 12 + fr.w1 % 2 ^ 12 := by rw [← sb12]
      _ = fr.w1 := (pow_split0 fr.w1 12).symm
  have sW2 : fr.w2 / 2 ^ 12 * 2 ^ 12 + fr.w2 % 2 ^ 12 = fr.w2 :=
    (pow_split0 fr.w2 12).symm
  have s5 : fr.w3 / 2 ^ 5 * 2 ^ 5 =
      fr.w3 / 2 ^ 6 * 2 ^ 6 + fr.w3 / 2 ^ 5 % 2 * 2 ^ 5 :=
    div_pow_split fr.w3 5 1
  have s6 : fr.w3 / 2 ^ 6 * 2 ^ 6 =
      fr.w3 / 2 ^ 7 * 2 ^ 7 + fr.w3 / 2 ^ 6 % 2 * 2 ^ 6 :=
    div_pow_split fr.w3 6 1
  have s7 : fr.w3 / 2 ^ 7 * 2 ^ 7 =
      fr.w3 / 2 ^ 8 * 2 ^ 8 + fr.w3 / 2 ^ 7 % 2 * 2 ^ 7 :=
    div_pow_split fr.w3 7 1
  have s8 : fr.w3 / 2 ^ 8 * 2 ^ 8 =
      fr.w3 / 2 ^ 12 * 2 ^ 12 + fr.w3 / 2 ^ 8 % 2 ^ 4 * 2 ^ 8 :=
    div_pow_split fr.w3 8 4
  have sW3 : fr.w3 / 2 ^ 12 * 2 ^ 12 +
      (fr.w3 / 2 ^ 8 % 2 ^ 4 * 2 ^ 8 +
        (fr.w3 / 2 ^ 7 % 2 * 2 ^ 7 +
          (fr.w3 / 2 ^ 6 % 2 * 2 ^ 6 + fr.w3 / 2 ^ 5 % 2 * 2 ^ 5))) =
      fr.w3 / 2 ^ 5 * 2 ^ 5 := by
    rw [s5, s6, s7, s8]
    simp [Nat.add_assoc]
  rw [sW0, sW1, sW2, sW3]

/-- C3 counterexample: the claimed exact round-trip fails. For the frame
with words (0, 0, 0, 1) — bit 0 set — re-encoding the nine decoded fields
per the section-3 layout does not reproduce the original 128 bits, because
bits w3[4:0] are covered by no decoded field. -/
theorem C3_counterexample :
    encode_fields_spec (decode_to_fields (Frame.mk 0 0 0 1)) ≠
      Frame.mk 0 0 0 1 := by decide

/-- C3 (amended): decode is deterministic and total, and re-encoding the
nine decoded fields per the section-3 layout reproduces the original
128 bits except the five lowest bits w3[4:0], which no field covers (they
re-encode as zero); the round trip is exact precisely when those five bits
are zero. -/
theorem C3_decode_roundtrip (fr : Frame) (h : wfFrame fr) :
    encode_fields_spec (decode_to_fields fr) =
      Frame.mk fr.w0 fr.w1 fr.w2 (fr.w3 / 2 ^ 5 * 2 ^ 5) ∧
    (encode_fields_spec (decode_to_fields fr) = fr ↔ fr.w3 % 2 ^ 5 = 0) := by
  refine ⟨encode_decode fr h, ?_⟩
  rw [encode_decode fr h]
  constructor
  · intro he
    have h3 : fr.w3 / 2 ^ 5 * 2 ^ 5 = fr.w3 := congrArg Frame.w3 he
    have hs := pow_split0 fr.w3 5
    rw [h3] at hs
    exact self_eq_add_right.mp hs
  · intro hm
    have h3 : fr.w3 / 2 ^ 5 * 2 ^ 5 = fr.w3 :=
      Nat.div_mul_cancel (Nat.dvd_of_mod_eq_zero hm)
    rw [h3]

/-- C3 witness: the round-trip theorem evaluated on a concrete frame. -/
theorem C3_witness :
    wfFrame (Frame.mk 0xA0000000 0x12345678 0x9ABCDEF0 0xCAFE00E0) ∧
    (encode_fields_spec
        (decode_to_fields (Frame.mk 0xA0000000 0x12345678 0x9ABCDEF0 0xCAFE00E0)) =
      Frame.mk 0xA0000000 0x12345678 0x9ABCDEF0 (0xCAFE00E0 / 2 ^ 5 * 2 ^ 5) ∧
    (encode_fields_spec
        (decode_to_fields (Frame.mk 0xA0000000 0x12345678 0x9ABCDEF0 0xCAFE00E0)) =
      Frame.mk 0xA0000000 0x12345678 0x9ABCDEF0 0xCAFE00E0 ↔
        0xCAFE00E0 % 2 ^ 5 = 0)) :=
  ⟨by decide, C3_decode_roundtrip _ (by decide)⟩

/-- C4 counterexample: for the frame 0xA0000000, 0x00000000, 0x00000000,
0x000000E0 the decoded grant flag is not 0 (bit 5 of w3 is set: 0xE0 =
0b11100000), contradicting the claimed expectation gnt = 0. -/
theorem C4_counterexample :
    ¬ (decode_to_fields (Frame.mk 0xA0000000 0 0 0xE0)).gnt = 0 := by decide

/-- C4 (amended): decoding the frame 0xA0000000, 0x00000000, 0x00000000,
0x000000E0 yields source id 0xA, write flag 1, valid flag 1, and grant
flag 1 (not 0: bit 5 of w3 is set). -/
theorem C4_scenario_decode :
    (decode_to_fields (Frame.mk 0xA0000000 0 0 0xE0)).src = 0xA ∧
    (decode_to_fields (Frame.mk 0xA0000000 0 0 0xE0)).we = 1 ∧
    (decode_to_fields (Frame.mk 0xA0000000 0 0 0xE0)).valid = 1 ∧
    (decode_to_fields (Frame.mk 0xA0000000 0 0 0xE0)).gnt = 1 := by decide

/-- C10: for every 128-bit frame the decoded fields respect their declared
widths: source id < 16, response timestamp < 65536, byte-enable < 16, each
flag is 0 or 1, and request timestamp, address and data fit in 32 bits. -/
theorem C10_decoded_field_widths (fr : Frame) (h : wfFrame fr) :
    (decode_to_fields fr).src < 16 ∧
    (decode_to_fields fr).resp_ts < 65536 ∧
    (decode_to_fields fr).be < 16 ∧
    ((decode_to_fields fr).we = 0 ∨ (decode_to_fields fr).we = 1) ∧
    ((decode_to_fields fr).valid = 0 ∨ (decode_to_fields fr).valid = 1) ∧
    ((decode_to_fields fr).gnt = 0 ∨ (decode_to_fields fr).gnt = 1) ∧
    (decode_to_fields fr).req_ts < 2 ^ 32 ∧
    (decode_to_fields fr).addr < 2 ^ 32 ∧
    (decode_to_fields fr).data < 2 ^ 32 := by
  obtain ⟨h0, h1, h2, h3⟩ := h
  rw [decode_src, decode_req_ts fr h1, decode_resp_ts, decode_addr fr h2,
    decode_data fr h3, decode_be, decode_we, decode_valid, decode_gnt]
  have hb4 : fr.w1 / 2 ^ 28 < 2 ^ 4 :=
    Nat.div_lt_of_lt_mul (Nat.lt_of_lt_of_le h1 (by decide))
  have hc20 : fr.w2 / 2 ^ 12 < 2 ^ 20 :=
    Nat.div_lt_of_lt_mul (Nat.lt_of_lt_of_le h2 (by decide))
  have hd20 : fr.w3 / 2 ^ 12 < 2 ^ 20 :=
    Nat.div_lt_of_lt_mul (Nat.lt_of_lt_of_le h3 (by decide))
  refine ⟨?_, ?_, ?_, ?_, ?_, ?_, ?_, ?_, ?_⟩
  · exact Nat.lt_of_lt_of_le (Nat.mod_lt _ (Nat.two_pow_pos 4)) (by norm_num)
  · exact Nat.lt_of_lt_of_le (Nat.mod_lt _ (Nat.two_pow_pos 16)) (by norm_num)
  · exact Nat.lt_of_lt_of_le (Nat.mod_lt _ (Nat.two_pow_pos 4)) (by norm_num)
  · exact Nat.mod_two_eq_zero_or_one _
  · exact Nat.mod_two_eq_zero_or_one _
  · exact Nat.mod_two_eq_zero_or_one _
  · exact (mul_add_lt_pow _ _ 28 4
      (Nat.mod_lt _ (Nat.two_pow_pos 28)) hb4).trans_le (by norm_num)
  · exact (mul_add_lt_pow _ _ 12 20
      (Nat.mod_lt _ (Nat.two_pow_pos 12)) hc20).trans_le (by norm_num)
  · exact (mul_add_lt_pow _ _ 12 20
      (Nat.mod_lt _ (Nat.two_pow_pos 12)) hd20).trans_le (by norm_num)

/-- C10 witness: field-width bounds evaluated on a concrete frame. -/
theorem C10_witness :
    wfFrame (Frame.mk 0xFFFFFFFF 0xFFFFFFFF 0xFFFFFFFF 0xFFFFFFFF) ∧
    ((decode_to_fields (Frame.mk 0xFFFFFFFF 0xFFFFFFFF 0xFFFFFFFF 0xFFFFFFFF)).src < 16 ∧
    (decode_to_fields (Frame.mk 0xFFFFFFFF 0xFFFFFFFF 0xFFFFFFFF 0xFFFFFFFF)).resp_ts < 65536 ∧
    (decode_to_fields (Frame.mk 0xFFFFFFFF 0xFFFFFFFF 0xFFFFFFFF 0xFFFFFFFF)).be < 16 ∧
    ((decode_to_fields (Frame.mk 0xFFFFFFFF 0xFFFFFFFF 0xFFFFFFFF 0xFFFFFFFF)).we = 0 ∨
      (decode_to_fields (Frame.mk 0xFFFFFFFF 0xFFFFFFFF 0xFFFFFFFF 0xFFFFFFFF)).we = 1) ∧
    ((decode_to_fields (Frame.mk 0xFFFFFFFF 0xFFFFFFFF 0xFFFFFFFF 0xFFFFFFFF)).valid = 0 ∨
      (decode_to_fields (Frame.mk 0xFFFFFFFF 0xFFFFFFFF 0xFFFFFFFF 0xFFFFFFFF)).valid = 1) ∧
    ((decode_to_fields (Frame.mk 0xFFFFFFFF 0xFFFFFFFF 0xFFFFFFFF 0xFFFFFFFF)).gnt = 0 ∨
      (decode_to_fields (Frame.mk 0xFFFFFFFF 0xFFFFFFFF 0xFFFFFFFF 0xFFFFFFFF)).gnt = 1) ∧
    (decode_to_fields (Frame.mk 0xFFFFFFFF 0xFFFFFFFF 0xFFFFFFFF 0xFFFFFFFF)).req_ts < 2 ^ 32 ∧
    (decode_to_fields (Frame.mk 0xFFFFFFFF 0xFFFFFFFF 0xFFFFFFFF 0xFFFFFFFF)).addr < 2 ^ 32 ∧
    (decode_to_fields (Frame.mk 0xFFFFFFFF 0xFFFFFFFF 0xFFFFFFFF 0xFFFFFFFF)).data < 2 ^ 32) :=
  ⟨by decide, C10_decoded_field_widths _ (by decide)⟩

/-! ### Formatted output

Models of the `fprintf` format strings used by the writer loop:
`"%u,%u,%u,0x%08X,0x%08X,%X,%u,%u,%u\n"` for the CSV sink and
`"src=%u ts=%08X/%04X addr=%08X data=%08X be=%X we=%u v%u g%u\n"` for the
console. Lines are stored without the trailing newline. -/

/-- Uppercase hexadecimal digit, as printed by `%X`. -/
def hexDigitChar (n : Nat) : Char :=
  if n < 10 then Char.ofNat (48 + n) else Char.ofNat (55 + n)

/-- `%08X`: eight fixed hex digits (all printed values are below 2^32). -/
def hex8 (x : Nat) : String :=
  String.mk ((List.range 8).reverse.map (fun i => hexDigitChar (x / 16 ^ i % 16)))

/-- `%04X`: four fixed hex digits (printed for the 16-bit resp_ts). -/
def hex4 (x : Nat) : String :=
  String.mk ((List.range 4).reverse.map (fun i => hexDigitChar (x / 16 ^ i % 16)))

/-- `%X` of the byte-enable (a value below 16: one digit). -/
def hex1 (x : Nat) : String := String.mk [hexDigitChar (x % 16)]

/-- Header line written by `start_consumer` to the CSV sink. -/
def csvHeader : String := "src,req_ts,resp_ts,address,data,be,we,valid,gnt"

/-- One CSV record, per the writer's fprintf format. -/
def csvLine (d : DecodedFields) : String :=
  Nat.repr d.src ++ "," ++ Nat.repr d.req_ts ++ "," ++ Nat.repr d.resp_ts ++
    ",0x" ++ hex8 d.addr ++ ",0x" ++ hex8 d.data ++ "," ++ hex1 d.be ++ "," ++
    Nat.repr d.we ++ "," ++ Nat.repr d.valid ++ "," ++ Nat.repr d.gnt

/-- One console echo line, per the writer's fprintf format. -/
def consoleLine (d : DecodedFields) : String :=
  "src=" ++ Nat.repr d.src ++ " ts=" ++ hex8 d.req_ts ++ "/" ++ hex4 d.resp_ts ++
    " addr=" ++ hex8 d.addr ++ " data=" ++ hex8 d.data ++ " be=" ++ hex1 d.be ++
    " we=" ++ Nat.repr d.we ++ " v" ++ Nat.repr d.valid ++ " g" ++ Nat.repr d.gnt

/-! ### Session state

The C file's globals, made explicit. `ring = none` models `ring == nullptr`
(likewise the two `FILE*` sinks); sink contents stand in for the bytes
written to the files. `console` is the stderr stream (it exists
independently of the session and is never cleared). `env_print` and
`env_every` model the `SNIFFER_PRINT` / `SNIFFER_PRINT_EVERY` environment
variables (`env_every` is the `atoi` result, 0 when unset or unparsable). -/
structure SnifferState where
  ring : Option (Nat → Frame)
  head : Nat
  tail : Nat
  running : Bool
  fbin : Option (List Frame)
  fcsv : Option (List String)
  print_enable : Bool
  print_every : Nat
  print_count : Nat
  console : List String
  env_print : Bool
  env_every : Nat

/-- The process-start state: static initialisers of the C globals. -/
def initState (p : Bool) (pe : Nat) : SnifferState :=
  { ring := none, head := 0, tail := 0, running := false, fbin := none,
    fcsv := none, print_enable := false, print_every := 1, print_count := 0,
    console := [], env_print := p, env_every := pe }

/-- Translation of `start_consumer`: guarded by `running`, allocates the
ring (malloc contents modelled as zero frames; they are never read before
being written), opens both sinks, writes the CSV header, resolves the
console-echo configuration from the environment, and publishes
`running = true`. Spawning the detached writer thread is modelled by
`drainPass` operations becoming enabled (they are guarded by `running`). -/
def start_consumer (s : SnifferState) : SnifferState :=
  if s.running then s
  else
    { s with
      ring := some (fun _ => Frame.mk 0 0 0 0),
      fbin := some [],
      fcsv := some [csvHeader],
      print_enable := s.env_print || s.print_enable,
      print_every := if s.env_every = 0 then s.print_every else s.env_every,
      running := true }

/-- The frame actually stored by a push: the four words as `uint32_t`
function parameters (hence reduced mod 2^32). -/
def maskFrame (w0 w1 w2 w3 : Nat) : Frame :=
  Frame.mk (w0 % 2 ^ 32) (w1 % 2 ^ 32) (w2 % 2 ^ 32) (w3 % 2 ^ 32)

/-- Translation of `sniffer_dpi_push`: reject a word count other than 4;
lazily start the session when the ring is unallocated; reject (drop) when
no free slot remains; otherwise write the frame at `head` and publish the
advanced head. Returns the new state and the accepted/dropped outcome. -/
def sniffer_dpi_push (s0 : SnifferState) (_stream_id nwords w0 w1 w2 w3 : Nat) :
    SnifferState × Bool :=
  if nwords ≠ 4 then (s0, false)
  else
    let s := if s0.ring.isNone then start_consumer s0 else s0
    match s.ring with
    | none => (s, false)
    | some r =>
      if rb_free s.head s.tail = 0 then (s, false)
      else
        ({ s with
            ring := some (fun i =>
              if i = s.head then maskFrame w0 w1 w2 w3 else r i),
            head := (s.head + 1) &&& (RB_SIZE - 1) }, true)

/-- Translation of `sniffer_dpi_close`: publish `running = false` (the
writer loop exits at its next check; the fixed grace sleep gives no drain
guarantee, so none is modelled), then flush/close both sinks and free the
ring, clearing all three handles. `head`, `tail` and the sampling counters
are not reset. -/
def sniffer_dpi_close (s : SnifferState) : SnifferState :=
  { s with running := false, fbin := none, fcsv := none, ring := none }

/-- One iteration of the writer's inner drain loop: read the frame at
`tail`, append its 16 raw bytes to the binary sink, append one CSV record,
optionally sample to the console (`++print_count % print_every == 0`, the
counter being a wrapping `unsigned`), and advance `tail`. -/
def drainStep (s : SnifferState) : SnifferState :=
  match s.ring with
  | none => s
  | some r =>
    let fr := r s.tail
    let d := decode_to_fields fr
    { s with
      fbin := s.fbin.map (fun l => l ++ [fr]),
      fcsv := s.fcsv.map (fun l => l ++ [csvLine d]),
      print_count := if s.print_enable then (s.print_count + 1) % 2 ^ 32
        else s.print_count,
      console := if s.print_enable &&
          ((s.print_count + 1) % 2 ^ 32 % s.print_every == 0)
        then s.console ++ [consoleLine d] else s.console,
      tail := (s.tail + 1) &&& (RB_SIZE - 1) }

/-- `drainStep` iterated n times. -/
def drainN : Nat → SnifferState → SnifferState
  | 0, s => s
  | n + 1, s => drainN n (drainStep s)

/-- One pass of the writer's outer loop: if the session is running, drain
every slot strictly between `tail` and the snapshot of `head` (the inner
`while (t != h)` loop runs exactly `rb_used head tail` times), then store
the advanced tail and flush. When `running` is false the writer has exited
and nothing is drained. -/
def drainPass (s : SnifferState) : SnifferState :=
  if s.running then drainN (rb_used s.head s.tail) s else s

/-! ### Observation functions and trace semantics -/

/-- Contents of the binary sink (empty when the sink is not open). Each
listed frame stands for the 16 raw bytes `fwrite` appends for it. -/
def binOf (s : SnifferState) : List Frame := s.fbin.getD []

/-- Lines of the CSV sink (empty when the sink is not open). -/
def csvOf (s : SnifferState) : List String := s.fcsv.getD []

/-- Bytes held by the binary sink: 16 per frame record. -/
def binByteCount (s : SnifferState) : Nat := 16 * (binOf s).length

/-- The `n` ring slots starting at index `t` (wrapping mod `RB_SIZE`). -/
def ringSegN (r : Nat -> Frame) (t n : Nat) : List Frame :=
  (List.range n).map (fun i => r ((t + i) % RB_SIZE))

/-- The live (pushed, not yet drained) frames, oldest first: the slots
strictly between `tail` and `head`. -/
def ringSeg (s : SnifferState) : List Frame :=
  match s.ring with
  | none => []
  | some r => ringSegN r s.tail (rb_used s.head s.tail)

/-- Console lines emitted while draining the given frames in order,
starting from sample-counter value `pc`, with sampling period `P`
(the counter is a wrapping 32-bit unsigned). -/
def conSeg (P pc : Nat) : List Frame -> List String
  | [] => []
  | f :: rest =>
      (if (pc + 1) % 2 ^ 32 % P == 0
        then [consoleLine (decode_to_fields f)] else []) ++
      conSeg P ((pc + 1) % 2 ^ 32) rest

/-- Console lines of a whole capture: one line for each frame whose
1-based index k satisfies `(k % 2^32) % P = 0`. -/
def conLines (P : Nat) (l : List Frame) : List String :=
  ((List.range l.length).filter (fun k => (k + 1) % 2 ^ 32 % P == 0)).map
    (fun k => consoleLine (decode_to_fields (l.getD k (Frame.mk 0 0 0 0))))

/-- One externally triggered event of the capture pipeline: a 4-word push
from the simulator, or one pass of the writer's drain loop. -/
inductive SnifferOp where
  | push (f : Frame)
  | drain
deriving DecidableEq

/-- Effect of one event on the session state. -/
def stepOp (s : SnifferState) : SnifferOp -> SnifferState
  | .push f => (sniffer_dpi_push s 0 4 f.w0 f.w1 f.w2 f.w3).1
  | .drain => drainPass s

/-- Run a sequence of events. -/
def runOps (s : SnifferState) (ops : List SnifferOp) : SnifferState :=
  ops.foldl stepOp s

/-- The frames pushed in a trace, in order. -/
def pushesOf : List SnifferOp -> List Frame
  | [] => []
  | .push f :: rest => f :: pushesOf rest
  | .drain :: rest => pushesOf rest

/-- The frames a trace's pushes got accepted into the ring, in order
(as stored, i.e. with the words reduced mod 2^32). -/
def acceptedFrames : SnifferState -> List SnifferOp -> List Frame
  | _, [] => []
  | s, .push f :: rest =>
      (if (sniffer_dpi_push s 0 4 f.w0 f.w1 f.w2 f.w3).2
        then [maskFrame f.w0 f.w1 f.w2 f.w3] else []) ++
      acceptedFrames (stepOp s (.push f)) rest
  | s, .drain :: rest => acceptedFrames (drainPass s) rest

/-- Every push of the trace happens with at most capacity - 2 frames
in flight, so that the number of in-flight frames (counting the new one)
never exceeds capacity - 1; this is exactly the condition under which no
push is dropped. -/
def pushesFitB : SnifferState -> List SnifferOp -> Bool
  | _, [] => true
  | s, .push f :: rest =>
      decide (rb_used s.head s.tail < RB_SIZE - 1) &&
      pushesFitB (stepOp s (.push f)) rest
  | s, .drain :: rest => pushesFitB (drainPass s) rest

/-- Invariant of a running capture session: indices in range, ring and
sinks allocated, the CSV sink holding the header plus one record per
drained frame, and (when console echo is on) the sample counter and the
console stream determined by the number of drained frames. -/
def WFS (s : SnifferState) : Prop :=
  s.running = true ∧ s.head < RB_SIZE ∧ s.tail < RB_SIZE ∧
  s.ring.isSome = true ∧ s.fbin.isSome = true ∧ s.fcsv.isSome = true ∧
  1 ≤ s.print_every ∧ s.print_count < 2 ^ 32 ∧
  csvOf s = csvHeader :: (binOf s).map (fun f => csvLine (decode_to_fields f)) ∧
  (s.print_enable = true →
    s.print_count = (binOf s).length % 2 ^ 32 ∧
    s.console = conLines s.print_every (binOf s))

/-! ### Push/close contract claims -/

/-- C6: a push whose word count is not 4 is rejected with no side effect at
all: the returned state is the argument state unchanged (no ring slot,
head/tail index, sink or session field is touched), even when the session
is uninitialized. -/
theorem C6_bad_word_count_rejected (s : SnifferState)
    (stream_id nwords w0 w1 w2 w3 : Nat) (h : nwords ≠ 4) :
    sniffer_dpi_push s stream_id nwords w0 w1 w2 w3 = (s, false) := by
  simp only [sniffer_dpi_push, if_pos h]

/-- C6 witness: a 3-word push on the pristine state is a rejected no-op. -/
theorem C6_witness :
    (3 : Nat) ≠ 4 ∧
    sniffer_dpi_push (initState false 1) 0 3 1 2 3 4 = (initState false 1, false) :=
  ⟨by decide, C6_bad_word_count_rejected (initState false 1) 0 3 1 2 3 4 (by decide)⟩

/-- C5: a push attempted while the ring holds capacity - 1 live frames
(`rb_free head tail = 0`) returns the not-accepted result and leaves the
whole session state - every ring slot, head and tail included -
unchanged. -/
theorem C5_full_ring_rejected (s : SnifferState) (r : Nat → Frame)
    (hr : s.ring = some r) (hfree : rb_free s.head s.tail = 0)
    (stream_id w0 w1 w2 w3 : Nat) :
    sniffer_dpi_push s stream_id 4 w0 w1 w2 w3 = (s, false) := by
  simp [sniffer_dpi_push, hr, hfree]

/-- A concrete running session whose ring is full (65535 live frames). -/
def fullRingState : SnifferState :=
  { start_consumer (initState false 1) with head := RB_SIZE - 1 }

/-- C5 witness: the full-ring rejection evaluated on a concrete state. -/
theorem C5_witness :
    (fullRingState.ring = some (fun _ => Frame.mk 0 0 0 0) ∧
      rb_free fullRingState.head fullRingState.tail = 0) ∧
    sniffer_dpi_push fullRingState 0 4 1 2 3 4 = (fullRingState, false) :=
  ⟨⟨rfl, by decide⟩,
    C5_full_ring_rejected fullRingState _ rfl (by decide) 0 1 2 3 4⟩

/-- C9: close on the uninitialized state is a no-op (the state, files
included, is exactly the initial one: no file is created, and storing
`false` to the already-false running flag changes nothing), and close is
idempotent: a second close performs no further cleanup because the sink
handles and the ring storage were already cleared to null by the first
close. -/
theorem C9_close_noop_and_idempotent (p : Bool) (pe : Nat) :
    sniffer_dpi_close (initState p pe) = initState p pe ∧
    ∀ s : SnifferState, sniffer_dpi_close (sniffer_dpi_close s) = sniffer_dpi_close s :=
  ⟨rfl, fun _ => rfl⟩

/-- C2 counterexample: the session does restart after close. Starting a
session (first push), closing it, then pushing again yields a state whose
ring is re-allocated, whose sinks are re-opened, and whose running flag is
true again - and the push is even accepted - because close clears the ring
pointer and `sniffer_dpi_push` re-runs the lazy `start_consumer` path
whenever the ring pointer is null and `running` is false. -/
theorem C2_counterexample :
    ((sniffer_dpi_push
        (sniffer_dpi_close ((sniffer_dpi_push (initState false 1) 0 4 0 0 0 0).1))
        0 4 1 2 3 4).1.running = true) ∧
     ((sniffer_dpi_push
        (sniffer_dpi_close ((sniffer_dpi_push (initState false 1) 0 4 0 0 0 0).1))
        0 4 1 2 3 4).1.ring.isSome = true) ∧
     ((sniffer_dpi_push
        (sniffer_dpi_close ((sniffer_dpi_push (initState false 1) 0 4 0 0 0 0).1))
        0 4 1 2 3 4).1.fbin.isSome = true) ∧
     ((sniffer_dpi_push
        (sniffer_dpi_close ((sniffer_dpi_push (initState false 1) 0 4 0 0 0 0).1))
        0 4 1 2 3 4).2 = true) := by decide

/-- C2 (amended): after close() has been called, a subsequent
push(stream_id, 4, ...) does restart the session: since close cleared the
ring pointer and the running flag, the lazy-start path re-allocates the
ring, re-opens both sinks and re-publishes running = true (the writer is
respawned), whatever the state was before close. -/
theorem C2_push_after_close_restarts (s : SnifferState)
    (stream_id w0 w1 w2 w3 : Nat) :
    ((sniffer_dpi_push (sniffer_dpi_close s) stream_id 4 w0 w1 w2 w3).1.running = true) ∧
    ((sniffer_dpi_push (sniffer_dpi_close s) stream_id 4 w0 w1 w2 w3).1.ring.isSome = true) ∧
    ((sniffer_dpi_push (sniffer_dpi_close s) stream_id 4 w0 w1 w2 w3).1.fbin.isSome = true) ∧
    ((sniffer_dpi_push (sniffer_dpi_close s) stream_id 4 w0 w1 w2 w3).1.fcsv.isSome = true) := by
  simp only [sniffer_dpi_push, sniffer_dpi_close, start_consumer]
  norm_num
  split <;> simp

/-! ### Ring-index arithmetic -/

lemma rb_used_le (h t : Nat) : rb_used h t ≤ RB_SIZE - 1 := Nat.and_le_right

lemma rb_used_mod (h t : Nat) (hh : h < RB_SIZE) (ht : t < RB_SIZE) :
    rb_used h t = (h + RB_SIZE - t) % RB_SIZE := by
  unfold rb_used RB_SIZE at *
  rw [and_mask]
  omega

lemma rb_free_eq_zero_iff (h t : Nat) :
    rb_free h t = 0 ↔ rb_used h t = RB_SIZE - 1 := by
  have hle := rb_used_le h t
  unfold rb_free
  omega

lemma adv_mask (x : Nat) : (x + 1) &&& (RB_SIZE - 1) = (x + 1) % RB_SIZE := by
  unfold RB_SIZE
  exact and_mask (x + 1) 16

lemma RB_SIZE_pos : 0 < RB_SIZE := by unfold RB_SIZE; omega

lemma RB_eq : RB_SIZE = 65536 := rfl

/-! ### Step-level characterisations -/

/-- Effect of one drain iteration on an allocated ring, as one record
update. -/
lemma drainStep_eq (s : SnifferState) (r : Nat → Frame) (hr : s.ring = some r) :
    drainStep s = { s with
      fbin := s.fbin.map (fun l => l ++ [r s.tail]),
      fcsv := s.fcsv.map (fun l =>
        l ++ [csvLine (decode_to_fields (r s.tail))]),
      print_count := if s.print_enable then (s.print_count + 1) % 2 ^ 32
        else s.print_count,
      console := if s.print_enable &&
          ((s.print_count + 1) % 2 ^ 32 % s.print_every == 0)
        then s.console ++ [consoleLine (decode_to_fields (r s.tail))]
        else s.console,
      tail := (s.tail + 1) &&& (RB_SIZE - 1) } := by
  simp [drainStep, hr]

/-- Effect of an accepted push (ring allocated, free space available). -/
lemma push_accepted_eq (s : SnifferState) (r : Nat → Frame)
    (hr : s.ring = some r) (hfree : rb_free s.head s.tail ≠ 0)
    (stream_id w0 w1 w2 w3 : Nat) :
    sniffer_dpi_push s stream_id 4 w0 w1 w2 w3 =
      ({ s with
          ring := some (fun i =>
            if i = s.head then maskFrame w0 w1 w2 w3 else r i),
          head := (s.head + 1) &&& (RB_SIZE - 1) }, true) := by
  simp [sniffer_dpi_push, hr, hfree]

lemma ringSegN_zero (r : Nat → Frame) (t : Nat) : ringSegN r t 0 = [] := rfl

lemma ringSegN_succ (r : Nat → Frame) (t n : Nat) (ht : t < RB_SIZE) :
    ringSegN r t (n + 1) = r t :: ringSegN r ((t + 1) % RB_SIZE) n := by
  unfold ringSegN
  rw [List.range_succ_eq_map]
  simp only [List.map_cons, List.map_map]
  congr 1
  · congr 1
    simp only [RB_eq] at *
    omega
  · apply List.map_congr_left
    intro i _
    simp only [Function.comp]
    congr 1
    simp only [RB_eq] at *
    omega


/-- Full characterisation of `n` drain iterations from an allocated ring:
the tail advances by `n` (mod capacity), the drained window is appended to
the binary sink and (as CSV records) to the text sink, the sample counter
advances by `n` (wrapping, only when echo is enabled), and the console
receives exactly the sampled lines of the window. -/
lemma drainN_spec (n : Nat) :
    ∀ (s : SnifferState) (r : Nat → Frame) (bl : List Frame) (cl : List String),
      s.ring = some r → s.fbin = some bl → s.fcsv = some cl →
      s.tail < RB_SIZE → s.print_count < 2 ^ 32 →
      drainN n s = { s with
        tail := (s.tail + n) % RB_SIZE,
        fbin := some (bl ++ ringSegN r s.tail n),
        fcsv := some (cl ++ (ringSegN r s.tail n).map
          (fun f => csvLine (decode_to_fields f))),
        print_count := if s.print_enable then (s.print_count + n) % 2 ^ 32
          else s.print_count,
        console := s.console ++ (if s.print_enable
          then conSeg s.print_every s.print_count (ringSegN r s.tail n)
          else []) } := by
  induction n with
  | zero =>
    intro s r bl cl hr hb hc ht hpc
    obtain ⟨rg, hd, tl, rn, fb, fc, pe, pev, pc, con, ep, ee⟩ := s
    simp only at hr hb hc ht hpc
    subst hb hc
    have e1 : (tl + 0) % RB_SIZE = tl := by
      simp only [RB_eq] at *
      omega
    have e2 : (pc + 0) % 2 ^ 32 = pc := by omega
    simp only [drainN, ringSegN_zero, conSeg, e1, e2, List.append_nil,
      ite_self, List.map_nil]
  | succ n ih =>
    intro s r bl cl hr hb hc ht hpc
    obtain ⟨rg, hd, tl, rn, fb, fc, pe, pev, pc, con, ep, ee⟩ := s
    simp only at hr hb hc ht hpc
    subst hb hc
    simp only [drainN]
    rw [drainStep_eq _ r hr]
    simp only
    rw [ih _ r (bl ++ [r tl]) (cl ++ [csvLine (decode_to_fields (r tl))])
        hr rfl rfl
        (by simp only; rw [adv_mask]; exact Nat.mod_lt _ RB_SIZE_pos)
        (by simp only; split <;> omega)]
    simp only [SnifferState.mk.injEq, true_and, adv_mask]
    refine ⟨?_, ?_, ?_, ?_, ?_⟩
    · simp only [RB_eq] at *
      omega
    · rw [ringSegN_succ r tl n ht]
      simp [List.append_assoc]
    · rw [ringSegN_succ r tl n ht]
      simp [List.append_assoc]
    · cases pe
      · simp
      · simp only [if_true, Bool.true_and]
        omega
    · cases pe
      · simp
      · rw [ringSegN_succ r tl n ht]
        simp only [conSeg, if_true, Bool.true_and]
        split <;> simp

/-- Rejected push at a full ring (internal form of the C5 property). -/
lemma push_rejected_eq (s : SnifferState) (r : Nat → Frame)
    (hr : s.ring = some r) (hfree : rb_free s.head s.tail = 0)
    (stream_id w0 w1 w2 w3 : Nat) :
    sniffer_dpi_push s stream_id 4 w0 w1 w2 w3 = (s, false) := by
  simp [sniffer_dpi_push, hr, hfree]

lemma ringSegN_length (r : Nat → Frame) (t n : Nat) :
    (ringSegN r t n).length = n := by
  simp [ringSegN]

lemma rb_used_self (h : Nat) (hh : h < RB_SIZE) : rb_used h h = 0 := by
  rw [rb_used_mod _ _ hh hh]
  simp only [RB_eq] at *
  omega

/-- Writing the slot at `head` extends the live window by that frame. -/
lemma ringSegN_write (r : Nat → Frame) (g : Frame) (h t : Nat)
    (hh : h < RB_SIZE) (ht : t < RB_SIZE) (hu : rb_used h t < RB_SIZE - 1) :
    ringSegN (fun i => if i = h then g else r i) t
        (rb_used ((h + 1) % RB_SIZE) t) =
      ringSegN r t (rb_used h t) ++ [g] := by
  rw [rb_used_mod _ _ hh ht] at hu ⊢
  rw [rb_used_mod _ _ (Nat.mod_lt _ RB_SIZE_pos) ht]
  have hu1 : ((h + 1) % RB_SIZE + RB_SIZE - t) % RB_SIZE =
      (h + RB_SIZE - t) % RB_SIZE + 1 := by
    simp only [RB_eq] at *
    omega
  rw [hu1]
  unfold ringSegN
  rw [List.range_succ, List.map_append]
  congr 1
  · apply List.map_congr_left
    intro i hi
    rw [List.mem_range] at hi
    have hne : (t + i) % RB_SIZE ≠ h := by
      simp only [RB_eq] at *
      omega
    simp [hne]
  · have he : (t + (h + RB_SIZE - t) % RB_SIZE) % RB_SIZE = h := by
      simp only [RB_eq] at *
      omega
    simp [he]

/-- Appending one frame to a capture extends the console lines by the
(possibly empty) sample of that frame. -/
lemma conLines_snoc (P : Nat) (l : List Frame) (f : Frame) :
    conLines P (l ++ [f]) =
      conLines P l ++ (if (l.length + 1) % 2 ^ 32 % P == 0
        then [consoleLine (decode_to_fields f)] else []) := by
  unfold conLines
  simp only [List.length_append, List.length_singleton]
  rw [List.range_succ, List.filter_append, List.map_append]
  have h1 : ∀ k ∈ (List.range l.length).filter
      (fun k => (k + 1) % 2 ^ 32 % P == 0),
      consoleLine (decode_to_fields ((l ++ [f]).getD k (Frame.mk 0 0 0 0))) =
      consoleLine (decode_to_fields (l.getD k (Frame.mk 0 0 0 0))) := by
    intro k hk
    rw [List.mem_filter, List.mem_range] at hk
    rw [List.getD_append _ _ _ _ hk.1]
  rw [List.map_congr_left h1, List.append_right_inj]
  by_cases hp : ((l.length + 1) % 2 ^ 32 % P == 0) = true
  · simp only [List.filter_cons, List.filter_nil, hp, if_true]
    simp only [List.map_cons, List.map_nil]
    rw [List.getD_append_right _ _ _ _ (Nat.le_refl _)]
    simp
  · simp only [List.filter_cons, List.filter_nil]
    rw [if_neg (by simpa using hp), if_neg hp]
    simp

/-- Draining `m` after an already captured `l` produces exactly the console
lines of the combined capture. -/
lemma conSeg_conLines (P : Nat) :
    ∀ (m l : List Frame),
      conLines P l ++ conSeg P (l.length % 2 ^ 32) m = conLines P (l ++ m) := by
  intro m
  induction m with
  | nil => intro l; simp [conSeg]
  | cons f rest ih =>
    intro l
    have hassoc : l ++ f :: rest = (l ++ [f]) ++ rest := by simp
    rw [hassoc, ← ih (l ++ [f])]
    simp only [conSeg, conLines_snoc, List.length_append, List.length_singleton]
    have e1 : (l.length % 2 ^ 32 + 1) % 2 ^ 32 = (l.length + 1) % 2 ^ 32 := by
      omega
    rw [e1]
    simp [List.append_assoc]

/-- Effect of one writer pass on a running session. -/
lemma drainPass_eq (s : SnifferState) (r : Nat → Frame) (bl : List Frame)
    (cl : List String) (hrun : s.running = true) (hr : s.ring = some r)
    (hb : s.fbin = some bl) (hc : s.fcsv = some cl)
    (hh : s.head < RB_SIZE) (ht : s.tail < RB_SIZE)
    (hpc : s.print_count < 2 ^ 32) :
    drainPass s = { s with
      tail := s.head,
      fbin := some (bl ++ ringSeg s),
      fcsv := some (cl ++ (ringSeg s).map (fun f => csvLine (decode_to_fields f))),
      print_count := if s.print_enable
        then (s.print_count + rb_used s.head s.tail) % 2 ^ 32
        else s.print_count,
      console := s.console ++ (if s.print_enable
        then conSeg s.print_every s.print_count (ringSeg s) else []) } := by
  have eseg : ringSeg s = ringSegN r s.tail (rb_used s.head s.tail) := by
    simp [ringSeg, hr]
  unfold drainPass
  rw [hrun]
  simp only [if_true]
  rw [drainN_spec (rb_used s.head s.tail) s r bl cl hr hb hc ht hpc]
  have e : (s.tail + rb_used s.head s.tail) % RB_SIZE = s.head := by
    rw [rb_used_mod _ _ hh ht]
    simp only [RB_eq] at *
    omega
  rw [e, eseg, hrun]

lemma acceptedFrames_cons (s : SnifferState) (op : SnifferOp)
    (rest : List SnifferOp) :
    acceptedFrames s (op :: rest) =
      acceptedFrames s [op] ++ acceptedFrames (stepOp s op) rest := by
  cases op with
  | push f => simp [acceptedFrames]
  | drain => simp [acceptedFrames, stepOp]

/-- One event preserves the session invariant, keeps the configuration, and
moves exactly the accepted frames into the pipeline (binary sink followed by
the live ring window). -/
lemma stepOp_spec (s : SnifferState) (op : SnifferOp) (h : WFS s) :
    WFS (stepOp s op) ∧
    binOf (stepOp s op) ++ ringSeg (stepOp s op) =
      (binOf s ++ ringSeg s) ++ acceptedFrames s [op] ∧
    (stepOp s op).print_enable = s.print_enable ∧
    (stepOp s op).print_every = s.print_every := by
  obtain ⟨hrun, hh, ht, hrg, hfb, hfc, hpev, hpc, hcsv, hcon⟩ := h
  obtain ⟨r, hr⟩ := Option.isSome_iff_exists.mp hrg
  obtain ⟨bl, hb⟩ := Option.isSome_iff_exists.mp hfb
  obtain ⟨cl, hc⟩ := Option.isSome_iff_exists.mp hfc
  have hblOf : binOf s = bl := by simp [binOf, hb]
  have hclOf : csvOf s = cl := by simp [csvOf, hc]
  cases op with
  | drain =>
    have hstep : stepOp s SnifferOp.drain = drainPass s := rfl
    rw [hstep, drainPass_eq s r bl cl hrun hr hb hc hh ht hpc]
    have hacc : acceptedFrames s [SnifferOp.drain] = [] := rfl
    have hseg0 : rb_used s.head s.head = 0 := rb_used_self s.head hh
    refine ⟨⟨hrun, hh, hh, by simp [hr], by simp, by simp, hpev, ?_, ?_, ?_⟩,
      ?_, rfl, rfl⟩
    · simp only
      split <;> omega
    · simp only [csvOf, binOf, Option.getD_some]
      rw [hclOf.symm, hcsv, hblOf]
      simp [List.map_append]
    · intro hpe
      constructor
      · simp only [binOf, Option.getD_some, List.length_append]
        rw [if_pos hpe]
        obtain ⟨hcnt, -⟩ := hcon hpe
        rw [hcnt, hblOf]
        have hlen : (ringSeg s).length = rb_used s.head s.tail := by
          simp [ringSeg, hr, ringSegN_length]
        rw [hlen]
        omega
      · simp only [binOf, Option.getD_some]
        rw [if_pos hpe]
        obtain ⟨hcnt, hcl⟩ := hcon hpe
        rw [hcl, hcnt, hblOf]
        exact conSeg_conLines s.print_every (ringSeg s) bl
    · rw [hacc, List.append_nil, hblOf]
      simp only [binOf, Option.getD_some, ringSeg]
      simp only [hr]
      rw [hseg0, ringSegN_zero, List.append_nil]
  | push f =>
    have hstep : stepOp s (SnifferOp.push f) =
        (sniffer_dpi_push s 0 4 f.w0 f.w1 f.w2 f.w3).1 := rfl
    by_cases hfree : rb_free s.head s.tail = 0
    · rw [hstep, push_rejected_eq s r hr hfree]
      have hacc : acceptedFrames s [SnifferOp.push f] = [] := by
        simp [acceptedFrames, push_rejected_eq s r hr hfree]
      rw [hacc]
      exact ⟨⟨hrun, hh, ht, hrg, hfb, hfc, hpev, hpc, hcsv, hcon⟩,
        by simp, rfl, rfl⟩
    · have hp := push_accepted_eq s r hr hfree 0 f.w0 f.w1 f.w2 f.w3
      rw [hstep, hp]
      have hacc : acceptedFrames s [SnifferOp.push f] =
          [maskFrame f.w0 f.w1 f.w2 f.w3] := by
        simp [acceptedFrames, hp]
      rw [hacc]
      have hused : rb_used s.head s.tail < RB_SIZE - 1 := by
        have := rb_used_le s.head s.tail
        unfold rb_free at hfree
        omega
      have hseg : ringSeg ({ s with
          ring := some (fun i =>
            if i = s.head then maskFrame f.w0 f.w1 f.w2 f.w3 else r i),
          head := (s.head + 1) &&& (RB_SIZE - 1) }) =
          ringSeg s ++ [maskFrame f.w0 f.w1 f.w2 f.w3] := by
        simp only [ringSeg, hr, adv_mask]
        exact ringSegN_write r (maskFrame f.w0 f.w1 f.w2 f.w3)
          s.head s.tail hh ht hused
      refine ⟨⟨hrun, ?_, ht, by simp, hfb, hfc, hpev, hpc, hcsv, hcon⟩,
        ?_, rfl, rfl⟩
      · simp only [adv_mask]
        exact Nat.mod_lt _ RB_SIZE_pos
      · rw [hseg]
        simp only [binOf]
        simp [List.append_assoc]

/-- Running a trace from a well-formed session preserves the invariant and
the configuration, and the pipeline (binary sink plus live ring window)
extends by exactly the accepted frames, in order. -/
lemma runOps_spec (ops : List SnifferOp) :
    ∀ s : SnifferState, WFS s →
      WFS (runOps s ops) ∧
      binOf (runOps s ops) ++ ringSeg (runOps s ops) =
        (binOf s ++ ringSeg s) ++ acceptedFrames s ops ∧
      (runOps s ops).print_enable = s.print_enable ∧
      (runOps s ops).print_every = s.print_every := by
  induction ops with
  | nil =>
    intro s h
    refine ⟨h, ?_, rfl, rfl⟩
    simp [runOps, acceptedFrames]
  | cons op rest ih =>
    intro s h
    obtain ⟨hw1, he1, hpe1, hpv1⟩ := stepOp_spec s op h
    obtain ⟨hw2, he2, hpe2, hpv2⟩ := ih (stepOp s op) hw1
    have hrun : runOps s (op :: rest) = runOps (stepOp s op) rest := rfl
    rw [hrun, acceptedFrames_cons]
    refine ⟨hw2, ?_, hpe2.trans hpe1, hpv2.trans hpv1⟩
    rw [he2, he1]
    simp [List.append_assoc]

lemma started_print_enable (p : Bool) (pe : Nat) :
    (start_consumer (initState p pe)).print_enable = p := by
  simp [start_consumer, initState]

lemma started_print_every (p : Bool) (pe : Nat) :
    (start_consumer (initState p pe)).print_every = if pe = 0 then 1 else pe := by
  simp [start_consumer, initState]

/-- The lazily started session satisfies the running-session invariant. -/
lemma WFS_started (p : Bool) (pe : Nat) :
    WFS (start_consumer (initState p pe)) := by
  unfold WFS
  refine ⟨rfl, (by decide : (0 : Nat) < RB_SIZE), (by decide : (0 : Nat) < RB_SIZE),
    rfl, rfl, rfl, ?_, (by decide : (0 : Nat) < 2 ^ 32), rfl,
    fun hpe => ⟨rfl, rfl⟩⟩
  rw [started_print_every]
  split <;> omega

lemma maskFrame_id (f : Frame) (h : wfFrame f) :
    maskFrame f.w0 f.w1 f.w2 f.w3 = f := by
  obtain ⟨h0, h1, h2, h3⟩ := h
  cases f
  simp only [maskFrame, Frame.mk.injEq]
  refine ⟨?_, ?_, ?_, ?_⟩ <;> simp only at h0 h1 h2 h3 <;> omega

/-- When every push of a trace fits (at most capacity - 2 frames in flight
at push time), the accepted frames are exactly the pushed frames. -/
lemma accepted_of_fit (ops : List SnifferOp) :
    ∀ s : SnifferState, WFS s → pushesFitB s ops = true →
      acceptedFrames s ops =
        (pushesOf ops).map (fun f => maskFrame f.w0 f.w1 f.w2 f.w3) := by
  induction ops with
  | nil => intro s _ _; rfl
  | cons op rest ih =>
    intro s hW hfit
    cases op with
    | drain =>
      have hW1 : WFS (drainPass s) := (stepOp_spec s SnifferOp.drain hW).1
      have hfit1 : pushesFitB (drainPass s) rest = true := hfit
      exact ih (drainPass s) hW1 hfit1
    | push f =>
      have hfit2 := hfit
      rw [pushesFitB, Bool.and_eq_true, decide_eq_true_eq] at hfit2
      obtain ⟨hlt, hrest⟩ := hfit2
      obtain ⟨r, hr⟩ := Option.isSome_iff_exists.mp hW.2.2.2.1
      have hfree : rb_free s.head s.tail ≠ 0 := by
        unfold rb_free
        omega
      have hp := push_accepted_eq s r hr hfree 0 f.w0 f.w1 f.w2 f.w3
      have hW1 : WFS (stepOp s (SnifferOp.push f)) :=
        (stepOp_spec s (SnifferOp.push f) hW).1
      rw [acceptedFrames_cons]
      have hone : acceptedFrames s [SnifferOp.push f] =
          [maskFrame f.w0 f.w1 f.w2 f.w3] := by
        simp [acceptedFrames, hp]
      rw [hone, ih (stepOp s (SnifferOp.push f)) hW1 hrest]
      rfl

/-- One final writer pass: everything still in the ring reaches the sinks,
and the ring window empties. -/
lemma final_drain_spec (s : SnifferState) (h : WFS s) :
    WFS (drainPass s) ∧
    binOf (drainPass s) = binOf s ++ ringSeg s ∧
    (drainPass s).print_enable = s.print_enable ∧
    (drainPass s).print_every = s.print_every := by
  have hW1 : WFS (drainPass s) := (stepOp_spec s SnifferOp.drain h).1
  obtain ⟨hrun, hh, ht, hrg, hfb, hfc, hpev, hpc, hcsv, hcon⟩ := h
  obtain ⟨r, hr⟩ := Option.isSome_iff_exists.mp hrg
  obtain ⟨bl, hb⟩ := Option.isSome_iff_exists.mp hfb
  obtain ⟨cl, hc⟩ := Option.isSome_iff_exists.mp hfc
  have hblOf : binOf s = bl := by simp [binOf, hb]
  rw [drainPass_eq s r bl cl hrun hr hb hc hh ht hpc] at hW1 ⊢
  refine ⟨hW1, ?_, rfl, rfl⟩
  rw [hblOf]
  simp [binOf]

/-- Summary of a full capture: run a trace from the lazily started session,
then let the writer drain the remainder. Under the fit condition every
pushed (well-formed) frame ends in the binary sink, in push order. -/
lemma capture_final (p : Bool) (pe : Nat) (ops : List SnifferOp)
    (hwf : ∀ f ∈ pushesOf ops, wfFrame f)
    (hfit : pushesFitB (start_consumer (initState p pe)) ops = true) :
    WFS (drainPass (runOps (start_consumer (initState p pe)) ops)) ∧
    binOf (drainPass (runOps (start_consumer (initState p pe)) ops)) =
      pushesOf ops ∧
    (drainPass (runOps (start_consumer (initState p pe)) ops)).print_enable
      = p ∧
    (drainPass (runOps (start_consumer (initState p pe)) ops)).print_every =
      (if pe = 0 then 1 else pe) := by
  have hW0 := WFS_started p pe
  obtain ⟨hW, heq, hpe, hpv⟩ := runOps_spec ops _ hW0
  obtain ⟨hWf, hbinf, hpef, hpvf⟩ := final_drain_spec _ hW
  have hbin0 : binOf (start_consumer (initState p pe)) = [] := rfl
  have hu00 : rb_used 0 0 = 0 := by decide
  have hseg0 : ringSeg (start_consumer (initState p pe)) = [] := by
    simp only [ringSeg, start_consumer, initState]
    simp [hu00, ringSegN_zero]
  have hmask : (pushesOf ops).map (fun f => maskFrame f.w0 f.w1 f.w2 f.w3) =
      pushesOf ops := by
    rw [List.map_congr_left (fun f hf => maskFrame_id f (hwf f hf))]
    exact List.map_id _
  refine ⟨hWf, ?_, hpef.trans (hpe.trans (started_print_enable p pe)),
    hpvf.trans (hpv.trans (started_print_every p pe))⟩
  rw [hbinf, heq, hbin0, hseg0, accepted_of_fit ops _ hW0 hfit, hmask]
  simp

/-- C1: for every trace of pushes and writer passes in which each push
finds the in-flight count below capacity - 1 (so no push is dropped),
after a final writer pass the binary sink holds every pushed frame exactly
once, in exactly the order pushed: no duplication, no loss, FIFO. -/
theorem C1_fifo_no_loss (p : Bool) (pe : Nat) (ops : List SnifferOp)
    (hwf : ∀ f ∈ pushesOf ops, wfFrame f)
    (hfit : pushesFitB (start_consumer (initState p pe)) ops = true) :
    binOf (drainPass (runOps (start_consumer (initState p pe)) ops)) =
      pushesOf ops :=
  (capture_final p pe ops hwf hfit).2.1

/-- C1 witness: a concrete interleaving of three pushes and writer passes
drains exactly the pushed frames in order. -/
theorem C1_witness :
    ((∀ f ∈ pushesOf [SnifferOp.push (Frame.mk 1 2 3 4), SnifferOp.drain,
        SnifferOp.push (Frame.mk 5 6 7 8), SnifferOp.push (Frame.mk 9 10 11 12)],
        wfFrame f) ∧
      pushesFitB (start_consumer (initState false 1))
        [SnifferOp.push (Frame.mk 1 2 3 4), SnifferOp.drain,
         SnifferOp.push (Frame.mk 5 6 7 8), SnifferOp.push (Frame.mk 9 10 11 12)]
        = true) ∧
    binOf (drainPass (runOps (start_consumer (initState false 1))
        [SnifferOp.push (Frame.mk 1 2 3 4), SnifferOp.drain,
         SnifferOp.push (Frame.mk 5 6 7 8), SnifferOp.push (Frame.mk 9 10 11 12)])) =
      pushesOf [SnifferOp.push (Frame.mk 1 2 3 4), SnifferOp.drain,
        SnifferOp.push (Frame.mk 5 6 7 8), SnifferOp.push (Frame.mk 9 10 11 12)] :=
  ⟨⟨by decide, by decide⟩,
    C1_fifo_no_loss false 1 _ (by decide) (by decide)⟩

/-- C8: after the writer has drained the N accepted frames of a
no-drop trace, the binary sink holds exactly 16 N bytes - one 16-byte raw
record per frame, in arrival order - and the text sink holds exactly N + 1
lines: the header plus one CSV record per frame. -/
theorem C8_sink_sizes (p : Bool) (pe : Nat) (ops : List SnifferOp)
    (hwf : ∀ f ∈ pushesOf ops, wfFrame f)
    (hfit : pushesFitB (start_consumer (initState p pe)) ops = true) :
    binByteCount (drainPass (runOps (start_consumer (initState p pe)) ops)) =
      16 * (pushesOf ops).length ∧
    (csvOf (drainPass (runOps (start_consumer (initState p pe)) ops))).length =
      (pushesOf ops).length + 1 ∧
    binOf (drainPass (runOps (start_consumer (initState p pe)) ops)) =
      pushesOf ops := by
  obtain ⟨hW, hbin, -, -⟩ := capture_final p pe ops hwf hfit
  obtain ⟨-, -, -, -, -, -, -, -, hcsv, -⟩ := hW
  refine ⟨?_, ?_, hbin⟩
  · simp [binByteCount, hbin]
  · rw [hcsv, hbin]
    simp

/-- C8 witness: two pushes and a writer pass produce 32 binary bytes and
three text lines (header plus two records). -/
theorem C8_witness :
    ((∀ f ∈ pushesOf [SnifferOp.push (Frame.mk 10 20 30 40),
        SnifferOp.push (Frame.mk 50 60 70 80)], wfFrame f) ∧
      pushesFitB (start_consumer (initState false 1))
        [SnifferOp.push (Frame.mk 10 20 30 40),
         SnifferOp.push (Frame.mk 50 60 70 80)] = true) ∧
    (binByteCount (drainPass (runOps (start_consumer (initState false 1))
        [SnifferOp.push (Frame.mk 10 20 30 40),
         SnifferOp.push (Frame.mk 50 60 70 80)])) =
      16 * (pushesOf [SnifferOp.push (Frame.mk 10 20 30 40),
        SnifferOp.push (Frame.mk 50 60 70 80)]).length ∧
    (csvOf (drainPass (runOps (start_consumer (initState false 1))
        [SnifferOp.push (Frame.mk 10 20 30 40),
         SnifferOp.push (Frame.mk 50 60 70 80)]))).length =
      (pushesOf [SnifferOp.push (Frame.mk 10 20 30 40),
        SnifferOp.push (Frame.mk 50 60 70 80)]).length + 1 ∧
    binOf (drainPass (runOps (start_consumer (initState false 1))
        [SnifferOp.push (Frame.mk 10 20 30 40),
         SnifferOp.push (Frame.mk 50 60 70 80)])) =
      pushesOf [SnifferOp.push (Frame.mk 10 20 30 40),
        SnifferOp.push (Frame.mk 50 60 70 80)]) :=
  ⟨⟨by decide, by decide⟩,
    C8_sink_sizes false 1 _ (by decide) (by decide)⟩

/-! ### Console sampling counts -/

lemma conLines_count (P : Nat) (_hP : 1 ≤ P) :
    ∀ N : Nat, N < 2 ^ 32 →
      ((List.range N).filter (fun k => (k + 1) % 2 ^ 32 % P == 0)).length =
        N / P := by
  intro N
  induction N with
  | zero => intro _; simp
  | succ n ihn =>
    intro hN
    rw [List.range_succ, List.filter_append]
    simp only [List.length_append]
    rw [ihn (by omega)]
    have h32 : (n + 1) % 2 ^ 32 = n + 1 := by omega
    by_cases hc : (n + 1) % P = 0
    · have hcb : ((n + 1) % 2 ^ 32 % P == 0) = true := by
        rw [h32]
        exact beq_iff_eq.mpr hc
      simp only [List.filter_cons, List.filter_nil, hcb, if_true,
        List.length_cons, List.length_nil]
      rw [Nat.succ_div, if_pos (Nat.dvd_of_mod_eq_zero hc)]
    · have hcb : ((n + 1) % 2 ^ 32 % P == 0) = false := by
        rw [h32]
        exact beq_eq_false_iff_ne.mpr hc
      simp only [List.filter_cons, List.filter_nil, hcb, Bool.false_eq_true,
        if_false, List.length_nil]
      have hndvd : ¬ P ∣ (n + 1) := fun hdvd =>
        hc (Nat.mod_eq_zero_of_dvd hdvd)
      rw [Nat.succ_div, if_neg hndvd]

lemma conLines_length (P : Nat) (hP : 1 ≤ P) (l : List Frame)
    (hN : l.length < 2 ^ 32) :
    (conLines P l).length = l.length / P := by
  unfold conLines
  rw [List.length_map]
  exact conLines_count P hP l.length hN

/-- Below the counter wrap, a console line is emitted exactly for the
frames whose 1-based index is a multiple of the sampling period. -/
lemma conLines_small (P : Nat) (l : List Frame) (hN : l.length < 2 ^ 32) :
    conLines P l =
      ((List.range l.length).filter (fun k => (k + 1) % P == 0)).map
        (fun k => consoleLine (decode_to_fields (l.getD k (Frame.mk 0 0 0 0)))) := by
  unfold conLines
  congr 1
  apply List.filter_congr
  intro k hk
  rw [List.mem_range] at hk
  have he : (k + 1) % 2 ^ 32 = k + 1 := by omega
  rw [he]

lemma ringSeg_drainPass (s : SnifferState) (h : WFS s) :
    ringSeg (drainPass s) = [] := by
  obtain ⟨hrun, hh, ht, hrg, hfb, hfc, hpev, hpc, hcsv, hcon⟩ := h
  obtain ⟨r, hr⟩ := Option.isSome_iff_exists.mp hrg
  obtain ⟨bl, hb⟩ := Option.isSome_iff_exists.mp hfb
  obtain ⟨cl, hc⟩ := Option.isSome_iff_exists.mp hfc
  rw [drainPass_eq s r bl cl hrun hr hb hc hh ht hpc]
  simp only [ringSeg, hr]
  rw [rb_used_self s.head hh, ringSegN_zero]

lemma runOps_append (s : SnifferState) (l1 l2 : List SnifferOp) :
    runOps s (l1 ++ l2) = runOps (runOps s l1) l2 := by
  simp [runOps, List.foldl_append]

lemma runOps_pair (s : SnifferState) (a b : SnifferOp) :
    runOps s [a, b] = stepOp (stepOp s a) b := rfl

/-- A trace of n rounds, each one accepted push of the zero frame followed
by one writer pass. -/
def pumpOps : Nat → List SnifferOp
  | 0 => []
  | n + 1 => pumpOps n ++ [SnifferOp.push (Frame.mk 0 0 0 0), SnifferOp.drain]

/-- After n pump rounds from a session started with console echo on and
sampling period 3: the invariant holds, the ring is empty, and exactly n
frames have been drained. -/
lemma pump_spec : ∀ n : Nat,
    WFS (runOps (start_consumer (initState true 3)) (pumpOps n)) ∧
    ringSeg (runOps (start_consumer (initState true 3)) (pumpOps n)) = [] ∧
    binOf (runOps (start_consumer (initState true 3)) (pumpOps n)) =
      List.replicate n (Frame.mk 0 0 0 0) ∧
    (runOps (start_consumer (initState true 3)) (pumpOps n)).print_enable
      = true ∧
    (runOps (start_consumer (initState true 3)) (pumpOps n)).print_every
      = 3 := by
  intro n
  induction n with
  | zero =>
    refine ⟨WFS_started true 3, ?_, rfl, ?_, ?_⟩
    · have hu00 : rb_used 0 0 = 0 := by decide
      show ringSeg (start_consumer (initState true 3)) = []
      simp only [ringSeg, start_consumer, initState]
      simp [hu00, ringSegN_zero]
    · exact started_print_enable true 3
    · show (start_consumer (initState true 3)).print_every = 3
      rw [started_print_every true 3]
      decide
  | succ n ih =>
    obtain ⟨hW, hseg, hbin, hpe, hpv⟩ := ih
    rw [show pumpOps (n + 1) =
        pumpOps n ++ [SnifferOp.push (Frame.mk 0 0 0 0), SnifferOp.drain]
        from rfl]
    rw [runOps_append, runOps_pair]
    obtain ⟨r, hr⟩ := Option.isSome_iff_exists.mp hW.2.2.2.1
    have hused : rb_used (runOps (start_consumer (initState true 3))
        (pumpOps n)).head (runOps (start_consumer (initState true 3))
        (pumpOps n)).tail = 0 := by
      have hlen := congrArg List.length hseg
      simp only [ringSeg, hr, ringSegN_length, List.length_nil] at hlen
      exact hlen
    have hfree : rb_free (runOps (start_consumer (initState true 3))
        (pumpOps n)).head (runOps (start_consumer (initState true 3))
        (pumpOps n)).tail ≠ 0 := by
      unfold rb_free
      rw [hused]
      simp [RB_eq]
    have hp := push_accepted_eq _ r hr hfree 0 0 0 0 0
    obtain ⟨hW1, heq1, hpe1, hpv1⟩ :=
      stepOp_spec _ (SnifferOp.push (Frame.mk 0 0 0 0)) hW
    obtain ⟨hW2, hbin2, hpe2, hpv2⟩ := final_drain_spec _ hW1
    refine ⟨hW2, ringSeg_drainPass _ hW1, ?_, hpe2.trans (hpe1.trans hpe),
      hpv2.trans (hpv1.trans hpv)⟩
    have hacc : acceptedFrames (runOps (start_consumer (initState true 3))
        (pumpOps n)) [SnifferOp.push (Frame.mk 0 0 0 0)] =
        [maskFrame 0 0 0 0] := by
      simp [acceptedFrames, hp]
    have hmask0 : maskFrame 0 0 0 0 = Frame.mk 0 0 0 0 := by decide
    have hbin2x : binOf (stepOp (stepOp (runOps (start_consumer
        (initState true 3)) (pumpOps n)) (SnifferOp.push (Frame.mk 0 0 0 0)))
        SnifferOp.drain) =
        binOf (stepOp (runOps (start_consumer (initState true 3)) (pumpOps n))
          (SnifferOp.push (Frame.mk 0 0 0 0))) ++
        ringSeg (stepOp (runOps (start_consumer (initState true 3)) (pumpOps n))
          (SnifferOp.push (Frame.mk 0 0 0 0))) := hbin2
    rw [hbin2x, heq1, hacc, hmask0, hbin, hseg]
    rw [List.replicate_succ' n (Frame.mk 0 0 0 0)]
    simp

/-- C7 counterexample: the claimed count ⌊N/P⌋ fails once the writer has
drained 2^32 frames, because the sample counter is a wrapping 32-bit
unsigned. With echo enabled and period P = 3, a trace of N = 2^32 accepted
and drained frames has emitted ⌊(2^32 - 1)/3⌋ + 1 console lines (the
wrapped counter value 0 at frame 2^32 also passes the `% P == 0` test),
which differs from ⌊2^32/3⌋. -/
theorem C7_counterexample :
    (binOf (runOps (start_consumer (initState true 3))
        (pumpOps (2 ^ 32)))).length = 2 ^ 32 ∧
    (runOps (start_consumer (initState true 3))
        (pumpOps (2 ^ 32))).console.length ≠ 2 ^ 32 / 3 := by
  obtain ⟨hW, hseg, hbin, hpe, hpv⟩ := pump_spec (2 ^ 32)
  have hlen : (binOf (runOps (start_consumer (initState true 3))
      (pumpOps (2 ^ 32)))).length = 2 ^ 32 := by
    rw [hbin, List.length_replicate]
  refine ⟨hlen, ?_⟩
  obtain ⟨-, -, -, -, -, -, -, -, -, hcon⟩ := hW
  obtain ⟨-, hconsole⟩ := hcon hpe
  rw [hconsole, hpv, hbin]
  unfold conLines
  rw [List.length_map, List.length_replicate]
  have hsplit : (2 : Nat) ^ 32 = (2 ^ 32 - 1) + 1 := by norm_num
  nth_rewrite 2 [hsplit]
  rw [List.range_succ, List.filter_append, List.length_append]
  rw [conLines_count 3 (by omega) (2 ^ 32 - 1) (by norm_num)]
  have hlast : ((2 ^ 32 - 1 + 1) % 2 ^ 32 % 3 == 0) = true := by decide
  simp only [List.filter_cons, List.filter_nil, hlast, if_true,
    List.length_cons, List.length_nil]
  decide

/-- C7 (amended): with console echo enabled and sampling period P ≥ 1,
after the writer has drained the N accepted frames of a no-drop trace with
N below 2^32 (the sample counter is a wrapping 32-bit unsigned), the
console has received exactly ⌊N/P⌋ lines, emitted exactly at the frames
whose 1-based index is a multiple of P. -/
theorem C7_console_sampling (pe : Nat) (ops : List SnifferOp)
    (hpe : 1 ≤ pe)
    (hwf : ∀ f ∈ pushesOf ops, wfFrame f)
    (hfit : pushesFitB (start_consumer (initState true pe)) ops = true)
    (hN : (pushesOf ops).length < 2 ^ 32) :
    (drainPass (runOps (start_consumer (initState true pe)) ops)).console =
      ((List.range (pushesOf ops).length).filter
          (fun k => (k + 1) % pe == 0)).map
        (fun k => consoleLine (decode_to_fields
          ((pushesOf ops).getD k (Frame.mk 0 0 0 0)))) ∧
    (drainPass (runOps (start_consumer (initState true pe)) ops)).console.length =
      (pushesOf ops).length / pe := by
  obtain ⟨hW, hbin, hpef, hpvf⟩ := capture_final true pe ops hwf hfit
  have hpv : (drainPass (runOps (start_consumer (initState true pe))
      ops)).print_every = pe := by
    rw [hpvf, if_neg (by omega)]
  obtain ⟨-, -, -, -, -, -, -, -, -, hcon⟩ := hW
  obtain ⟨-, hconsole⟩ := hcon hpef
  rw [hconsole, hpv, hbin]
  exact ⟨conLines_small pe _ hN, conLines_length pe hpe _ hN⟩

/-- C7 witness: period 2, three frames pushed and drained, one console
line, emitted at the second frame. -/
theorem C7_witness :
    ((1 : Nat) ≤ 2 ∧
     (∀ f ∈ pushesOf [SnifferOp.push (Frame.mk 1 0 0 0),
        SnifferOp.push (Frame.mk 2 0 0 0), SnifferOp.drain,
        SnifferOp.push (Frame.mk 3 0 0 0)], wfFrame f) ∧
     pushesFitB (start_consumer (initState true 2))
        [SnifferOp.push (Frame.mk 1 0 0 0), SnifferOp.push (Frame.mk 2 0 0 0),
         SnifferOp.drain, SnifferOp.push (Frame.mk 3 0 0 0)] = true ∧
     (pushesOf [SnifferOp.push (Frame.mk 1 0 0 0),
        SnifferOp.push (Frame.mk 2 0 0 0), SnifferOp.drain,
        SnifferOp.push (Frame.mk 3 0 0 0)]).length < 2 ^ 32) ∧
    ((drainPass (runOps (start_consumer (initState true 2))
        [SnifferOp.push (Frame.mk 1 0 0 0), SnifferOp.push (Frame.mk 2 0 0 0),
         SnifferOp.drain, SnifferOp.push (Frame.mk 3 0 0 0)])).console =
      ((List.range (pushesOf [SnifferOp.push (Frame.mk 1 0 0 0),
          SnifferOp.push (Frame.mk 2 0 0 0), SnifferOp.drain,
          SnifferOp.push (Frame.mk 3 0 0 0)]).length).filter
          (fun k => (k + 1) % 2 == 0)).map
        (fun k => consoleLine (decode_to_fields
          ((pushesOf [SnifferOp.push (Frame.mk 1 0 0 0),
            SnifferOp.push (Frame.mk 2 0 0 0), SnifferOp.drain,
            SnifferOp.push (Frame.mk 3 0 0 0)]).getD k (Frame.mk 0 0 0 0)))) ∧
    (drainPass (runOps (start_consumer (initState true 2))
        [SnifferOp.push (Frame.mk 1 0 0 0), SnifferOp.push (Frame.mk 2 0 0 0),
         SnifferOp.drain, SnifferOp.push (Frame.mk 3 0 0 0)])).console.length =
      (pushesOf [SnifferOp.push (Frame.mk 1 0 0 0),
        SnifferOp.push (Frame.mk 2 0 0 0), SnifferOp.drain,
        SnifferOp.push (Frame.mk 3 0 0 0)]).length / 2) :=
  ⟨⟨by decide, by decide, by decide, by decide⟩,
    C7_console_sampling 2 _ (by decide) (by decide) (by decide) (by decide)⟩

end BusSniffer
